import Mathlib

/-!
Verification development for the incremental semantic-analysis core of
rust-analyzer (the `HirDatabase` query group in `crates/hir-ty/src/db.rs`,
the `reorder_impl_items` assist, and the old-style config patcher).

Pure functions from the source are embedded as Lean functions; the salsa
query engine (memoization, interning, cycle recovery), whose implementation
lives outside this repository, is modelled from the specification where a
claim depends on it.
-/

namespace RustAnalyzer

/-! ## The HirDatabase query group, transcribed from `crates/hir-ty/src/db.rs`

Each `#[salsa::...]` annotated method of the `HirDatabase` trait becomes one
`QueryDecl` record: its name, the `#[salsa::invoke(..)]` target if any, the
`#[salsa::cycle(..)]` recovery function if any, and whether it is declared
`#[salsa::transparent]` or `#[salsa::interned]`. -/

structure QueryDecl where
  name : String
  invokes : Option String
  cycleRecover : Option String
  isTransparent : Bool
  isInterned : Bool
deriving DecidableEq, Repr

def mkQuery (n : String) (inv : Option String) (rec_ : Option String)
    (tr : Bool) (int : Bool) : QueryDecl :=
  ⟨n, inv, rec_, tr, int⟩

def hirDatabaseQueries : List QueryDecl :=
  [ mkQuery "infer" (some "infer_wait") none true false
  , mkQuery "infer_query" (some "crate::infer::infer_query") none false false
  , mkQuery "ty" (some "crate::lower::ty_query") (some "crate::lower::ty_recover") false false
  , mkQuery "value_ty" (some "crate::lower::value_ty_query") none false false
  , mkQuery "impl_self_ty" (some "crate::lower::impl_self_ty_query")
      (some "crate::lower::impl_self_ty_recover") false false
  , mkQuery "const_param_ty" (some "crate::lower::const_param_ty_query") none false false
  , mkQuery "const_eval" (some "crate::consteval::const_eval_query")
      (some "crate::consteval::const_eval_recover") false false
  , mkQuery "impl_trait" (some "crate::lower::impl_trait_query") none false false
  , mkQuery "field_types" (some "crate::lower::field_types_query") none false false
  , mkQuery "callable_item_signature" (some "crate::callable_item_sig") none false false
  , mkQuery "return_type_impl_traits" (some "crate::lower::return_type_impl_traits")
      none false false
  , mkQuery "generic_predicates_for_param"
      (some "crate::lower::generic_predicates_for_param_query")
      (some "crate::lower::generic_predicates_for_param_recover") false false
  , mkQuery "generic_predicates" (some "crate::lower::generic_predicates_query")
      none false false
  , mkQuery "trait_environment" (some "crate::lower::trait_environment_query")
      none false false
  , mkQuery "generic_defaults" (some "crate::lower::generic_defaults_query")
      (some "crate::lower::generic_defaults_recover") false false
  , mkQuery "inherent_impls_in_crate" (some "InherentImpls::inherent_impls_in_crate_query")
      none false false
  , mkQuery "inherent_impls_in_block" (some "InherentImpls::inherent_impls_in_block_query")
      none false false
  , mkQuery "inherent_impl_crates" (some "crate::method_resolution::inherent_impl_crates_query")
      none false false
  , mkQuery "trait_impls_in_crate" (some "TraitImpls::trait_impls_in_crate_query")
      none false false
  , mkQuery "trait_impls_in_block" (some "TraitImpls::trait_impls_in_block_query")
      none false false
  , mkQuery "trait_impls_in_deps" (some "TraitImpls::trait_impls_in_deps_query")
      none false false
  , mkQuery "intern_callable_def" none none false true
  , mkQuery "intern_type_or_const_param_id" none none false true
  , mkQuery "intern_lifetime_param_id" none none false true
  , mkQuery "intern_impl_trait_id" none none false true
  , mkQuery "intern_closure" none none false true
  , mkQuery "associated_ty_data" (some "chalk_db::associated_ty_data_query") none false false
  , mkQuery "trait_datum" (some "chalk_db::trait_datum_query") none false false
  , mkQuery "struct_datum" (some "chalk_db::struct_datum_query") none false false
  , mkQuery "impl_datum" (some "chalk_db::impl_datum_query") none false false
  , mkQuery "fn_def_datum" (some "chalk_db::fn_def_datum_query") none false false
  , mkQuery "fn_def_variance" (some "chalk_db::fn_def_variance_query") none false false
  , mkQuery "adt_variance" (some "chalk_db::adt_variance_query") none false false
  , mkQuery "associated_ty_value" (some "chalk_db::associated_ty_value_query") none false false
  , mkQuery "trait_solve" (some "trait_solve_wait") none true false
  , mkQuery "trait_solve_query" (some "crate::traits::trait_solve_query") none false false
  , mkQuery "program_clauses_for_chalk_env"
      (some "chalk_db::program_clauses_for_chalk_env_query") none false false
  ]

def findQuery (n : String) : Option QueryDecl :=
  hirDatabaseQueries.find? (fun q => q.name = n)

/-! ## Identifier types and the timing-span wrappers (from `db.rs`)

`infer_wait` and `trait_solve_wait` open a profiling span (computing a detail
string for `infer_wait`) and then call through to the underlying query. The
profiling span has no influence on the returned value, which the embedding
records by computing the detail string into an unused binding exactly as the
source binds `_p`. -/

structure FunctionId where
  id : Nat
deriving DecidableEq, Repr

structure StaticId where
  id : Nat
deriving DecidableEq, Repr

structure ConstId where
  id : Nat
deriving DecidableEq, Repr

inductive DefWithBodyId where
  | functionId (it : FunctionId)
  | staticId (it : StaticId)
  | constId (it : ConstId)
deriving DecidableEq, Repr

structure CrateId where
  id : Nat
deriving DecidableEq, Repr

/-- Stand-in for `hir_expand::name::Name::missing()`. -/
def nameMissing : String := "[missing name]"

/-- An `InferenceResult` is an opaque value produced by `infer_query`; its
internal structure is irrelevant to the wrapper claims. -/
structure InferenceResult where
  val : Nat
deriving DecidableEq, Repr

/-- Outcome of a solver goal, per the data model: uniquely provable (with a
substitution) or ambiguous (with optional guidance); "unprovable" is the
absence of a `Solution` (`None` from `trait_solve`). -/
inductive Solution where
  | unique (subst : Nat)
  | ambig (guidance : Option Nat)
deriving DecidableEq, Repr

/-- A canonicalized goal-in-environment fed to `trait_solve`. -/
structure CanonicalGoal where
  goal : Nat
deriving DecidableEq, Repr

/-- The parts of the `HirDatabase` the wrappers in `db.rs` read: name data
for the profiling detail string, and the wrapped queries themselves. -/
structure HirDb where
  functionName : FunctionId → String
  staticName : StaticId → String
  constName : ConstId → Option String
  inferQuery : DefWithBodyId → InferenceResult
  traitSolveQuery : CrateId → CanonicalGoal → Option Solution

/-- Embedding of `infer_wait` from `db.rs`: builds the `infer:wait` span
detail from the def's name data, then returns `db.infer_query(def)`. -/
def infer_wait (db : HirDb) (d : DefWithBodyId) : InferenceResult :=
  let spanDetail : String :=
    match d with
    | DefWithBodyId.functionId it => db.functionName it
    | DefWithBodyId.staticId it => db.staticName it
    | DefWithBodyId.constId it => (db.constName it).getD nameMissing
  let _p := spanDetail
  db.inferQuery d

/-- Embedding of `trait_solve_wait` from `db.rs`: opens the
`trait_solve::wait` span, then returns `db.trait_solve_query(krate, goal)`. -/
def trait_solve_wait (db : HirDb) (krate : CrateId) (goal : CanonicalGoal) :
    Option Solution :=
  let _p := "trait_solve::wait"
  db.traitSolveQuery krate goal

/-! ## Query store (memoization + revision stamping)

Modelled from the spec: the salsa Query Store (§4.1) is not part of this
repository; only its query-group declarations are. `get(query_kind, key)`
returns the cached value when the cache entry is valid at the current
revision, and otherwise evaluates the query function and caches the result
stamped with the current revision. Failures are ordinary cached values. -/

structure Store (K V : Type) where
  rev : Nat
  cache : K → Option (V × Nat)

def Store.empty (K V : Type) : Store K V :=
  ⟨0, fun _ => none⟩

/-- Modelled from the spec: `get(query_kind, key) -> value` (§4.1). The
second component is the store after the call. -/
def get {K V : Type} [DecidableEq K] (f : K → V) (s : Store K V) (k : K) :
    V × Store K V :=
  match s.cache k with
  | some (v, r) =>
    if r = s.rev then (v, s)
    else
      let v := f k
      (v, ⟨s.rev, fun x => if x = k then some (v, s.rev) else s.cache x⟩)
  | none =>
      let v := f k
      (v, ⟨s.rev, fun x => if x = k then some (v, s.rev) else s.cache x⟩)

/-- Modelled from the spec: the monotonic revision counter (§2, Revision
Tracking) advanced on each committed input change. -/
def bumpRevision {K V : Type} (s : Store K V) : Store K V :=
  ⟨s.rev + 1, s.cache⟩

/-! ## Constant evaluation results

Modelled from the spec: `consteval::{ComputedExpr, ConstEvalError}` are not
part of this repository slice; §6 gives the failure kinds {cyclic
definition, type mismatch, evaluation panic}, and `db.rs` fixes the query's
result type `Result<ComputedExpr, ConstEvalError>`. -/

inductive ConstEvalError where
  | cyclicDefinition
  | typeMismatch
  | evaluationPanic
deriving DecidableEq, Repr

structure ComputedExpr where
  val : Int
deriving DecidableEq, Repr

/-- Keys of the `const_eval` query as stored in the query store. -/
abbrev ConstEvalStore := Store ConstId (Except ConstEvalError ComputedExpr)

/-- Modelled from the spec: `const_eval` evaluated through the store — the
typed `Result` of `const_eval_query` cached like any normal query result. -/
def const_eval (f : ConstId → Except ConstEvalError ComputedExpr)
    (s : ConstEvalStore) (d : ConstId) :
    Except ConstEvalError ComputedExpr × ConstEvalStore :=
  get f s d

/-! ## Cycle detector & recovery

Modelled from the spec: the active-evaluation stack and per-query recovery
(§4.2) live in the salsa engine outside this repository; `db.rs` only
registers the recovery functions via `#[salsa::cycle(..)]`. Each in-flight
key is pushed on the stack; a nested `get` hitting a key already on the
stack reports the cycle members, and each member substitutes its registered
`(cycle members) -> fallback value` while the cycle unwinds. The second
component of `eval` counts store operations (calls to `get`). -/

inductive EvalRes (K V : Type) where
  | cyc (members : List K)
  | val (v : V)
deriving DecidableEq, Repr

structure QuerySystem (K V : Type) where
  deps : K → List K
  combine : K → List V → V
  fallback : K → List K → V

def isCyc {K V : Type} : EvalRes K V → Bool
  | .cyc _ => true
  | .val _ => false

def resVal {K V : Type} : EvalRes K V → Option V
  | .cyc _ => none
  | .val v => some v

lemma card_compl_cons_lt {K : Type} [DecidableEq K] [Fintype K]
    (stack : List K) (k : K) (h : k ∉ stack) :
    (Finset.univ \ (k :: stack).toFinset).card <
      (Finset.univ \ stack.toFinset).card := by
  have hk : k ∈ Finset.univ \ stack.toFinset := by simp [h]
  have he : Finset.univ \ (k :: stack).toFinset =
      (Finset.univ \ stack.toFinset).erase k := by
    simp [List.toFinset_cons, Finset.sdiff_insert]
  rw [he]
  exact Finset.card_erase_lt_of_mem hk

mutual

def eval {K V : Type} [DecidableEq K] [Fintype K] (q : QuerySystem K V)
    (stack : List K) (k : K) : EvalRes K V × Nat :=
  if h : k ∈ stack then
    (EvalRes.cyc (stack.takeWhile (fun a => a != k) ++ [k]), 1)
  else
    let rs := evalList q (k :: stack) (q.deps k)
    let r :=
      match rs.1.find? isCyc with
      | some (EvalRes.cyc m) =>
          if k ∈ m then
            if m.getLast? = some k then EvalRes.val (q.fallback k m)
            else EvalRes.cyc m
          else EvalRes.cyc m
      | _ => EvalRes.val (q.combine k (rs.1.filterMap resVal))
    (r, 1 + rs.2)
termination_by ((Finset.univ \ stack.toFinset).card, 0)
decreasing_by
  apply Prod.Lex.left
  simpa using card_compl_cons_lt stack k h

def evalList {K V : Type} [DecidableEq K] [Fintype K] (q : QuerySystem K V)
    (stack : List K) : List K → List (EvalRes K V) × Nat
  | [] => ([], 0)
  | d :: ds =>
      let r := eval q stack d
      let rs := evalList q stack ds
      (r.1 :: rs.1, r.2 + rs.2)
termination_by ds => ((Finset.univ \ stack.toFinset).card, ds.length)

end

lemma eval_stack_mem {K V : Type} [DecidableEq K] [Fintype K]
    (q : QuerySystem K V) (stack : List K) (k : K) (h : k ∈ stack) :
    eval q stack k =
      (EvalRes.cyc (stack.takeWhile (fun a => a != k) ++ [k]), 1) := by
  rw [eval]
  simp [h]

lemma eval_stack_not_mem {K V : Type} [DecidableEq K] [Fintype K]
    (q : QuerySystem K V) (stack : List K) (k : K) (h : k ∉ stack) :
    eval q stack k =
      (match (evalList q (k :: stack) (q.deps k)).1.find? isCyc with
        | some (EvalRes.cyc m) =>
            if k ∈ m then
              if m.getLast? = some k then EvalRes.val (q.fallback k m)
              else EvalRes.cyc m
            else EvalRes.cyc m
        | _ => EvalRes.val
            (q.combine k ((evalList q (k :: stack) (q.deps k)).1.filterMap resVal)),
        1 + (evalList q (k :: stack) (q.deps k)).2) := by
  rw [eval]
  simp [h]

lemma evalList_nil {K V : Type} [DecidableEq K] [Fintype K]
    (q : QuerySystem K V) (stack : List K) :
    evalList q stack [] = ([], 0) := by
  rw [evalList]

lemma evalList_cons {K V : Type} [DecidableEq K] [Fintype K]
    (q : QuerySystem K V) (stack : List K) (d : K) (ds : List K) :
    evalList q stack (d :: ds) =
      ((eval q stack d).1 :: (evalList q stack ds).1,
        (eval q stack d).2 + (evalList q stack ds).2) := by
  rw [evalList]

/-- Two queries whose dependencies mutually reference each other: evaluating
either one terminates in exactly three store operations and yields that
query's own registered fallback applied to the cycle members. -/
lemma eval_mutual_cycle {K V : Type} [DecidableEq K] [Fintype K]
    (q : QuerySystem K V) (a b : K) (hab : a ≠ b)
    (hda : q.deps a = [b]) (hdb : q.deps b = [a]) :
    eval q [] a = (EvalRes.val (q.fallback a [b, a]), 3) := by
  have hba : (b != a) = true := bne_iff_ne.mpr (fun e => hab e.symm)
  have h1 : eval q [b, a] a = (EvalRes.cyc [b, a], 1) := by
    rw [eval_stack_mem q [b, a] a (by simp)]
    simp [List.takeWhile, hba]
  have hbm : b ∉ ([a] : List K) := by
    intro hmem
    rcases List.mem_singleton.mp hmem with rfl
    exact hab rfl
  have h2 : eval q [a] b = (EvalRes.cyc [b, a], 2) := by
    rw [eval_stack_not_mem q [a] b hbm, hdb]
    rw [evalList_cons, evalList_nil, h1]
    simp [isCyc, List.find?, hab]
  rw [eval_stack_not_mem q [] a (by simp), hda]
  rw [evalList_cons, evalList_nil, h2]
  simp [isCyc, List.find?]

/-- A query depending directly on itself terminates in exactly two store
operations and yields its registered fallback on the singleton cycle. -/
lemma eval_self_cycle {K V : Type} [DecidableEq K] [Fintype K]
    (q : QuerySystem K V) (c : K) (hdc : q.deps c = [c]) :
    eval q [] c = (EvalRes.val (q.fallback c [c]), 2) := by
  have h1 : eval q [c] c = (EvalRes.cyc [c], 1) := by
    rw [eval_stack_mem q [c] c (by simp)]
    simp [List.takeWhile]
  rw [eval_stack_not_mem q [] c (by simp), hdc]
  rw [evalList_cons, evalList_nil, h1]
  simp [isCyc, List.find?]

/-! ## Interning tables

Modelled from the spec: the salsa `#[salsa::interned]` machinery behind
`intern_callable_def`, `intern_type_or_const_param_id`,
`intern_lifetime_param_id`, `intern_impl_trait_id` and `intern_closure` is
not part of this repository. Per §4.3 each composite-key family has one
append-only table; `intern(composite) -> handle` is idempotent and
`lookup(handle) -> composite` is total for issued handles. The table is the
list of composites in insertion order; a handle is a dense index. -/

def internFind {C : Type} [DecidableEq C] (c : C) : List C → Option Nat
  | [] => none
  | x :: xs => if x = c then some 0 else (internFind c xs).map (· + 1)

/-- Modelled from the spec: `intern(composite) -> handle` (§4.3); reuses the
existing handle when the composite is already in the table, otherwise
appends the composite. -/
def intern {C : Type} [DecidableEq C] (t : List C) (c : C) : Nat × List C :=
  match internFind c t with
  | some i => (i, t)
  | none => (t.length, t ++ [c])

/-- Modelled from the spec: `lookup(handle) -> composite` (§4.3). -/
def lookup {C : Type} (t : List C) (h : Nat) : Option C :=
  t[h]?

lemma internFind_lookup {C : Type} [DecidableEq C] {c : C} {t : List C}
    {i : Nat} (h : internFind c t = some i) : lookup t i = some c := by
  induction t generalizing i with
  | nil => simp [internFind] at h
  | cons x xs ih =>
    by_cases hx : x = c
    · simp [internFind, hx] at h
      subst h
      simp [lookup, hx]
    · simp [internFind, hx] at h
      obtain ⟨j, hj, rfl⟩ := h
      simpa [lookup] using ih hj

lemma internFind_append_self {C : Type} [DecidableEq C] {c : C} {t : List C}
    (h : internFind c t = none) : internFind c (t ++ [c]) = some t.length := by
  induction t with
  | nil => simp [internFind]
  | cons x xs ih =>
    simp only [internFind, List.cons_append] at h ⊢
    by_cases hx : x = c
    · simp [hx] at h
    · rw [if_neg hx] at h ⊢
      rw [Option.map_eq_none'] at h
      simp only [List.append_eq]
      rw [ih h]
      rfl

lemma lookup_intern {C : Type} [DecidableEq C] (t : List C) (c : C) :
    lookup (intern t c).2 (intern t c).1 = some c := by
  unfold intern
  cases hf : internFind c t with
  | some i => simpa using internFind_lookup hf
  | none => simp [lookup]

lemma lookup_intern_mono {C : Type} [DecidableEq C] (t : List C) (c c0 : C)
    (hh : Nat) (h : lookup t hh = some c0) :
    lookup (intern t c).2 hh = some c0 := by
  unfold intern
  cases hf : internFind c t with
  | some i => simpa using h
  | none =>
    have hlt : hh < t.length := by
      by_contra hge
      simp [lookup, List.getElem?_eq_none (Nat.le_of_not_lt hge)] at h
    simpa [lookup, List.getElem?_append_left hlt] using h

lemma intern_idem {C : Type} [DecidableEq C] (t : List C) (c : C) :
    intern (intern t c).2 c = intern t c := by
  unfold intern
  cases hf : internFind c t with
  | some i => simp [hf]
  | none => simp [internFind_append_self hf]

/-! ## Bounded inherent-impl-crates lookup

Modelled from the spec: `inherent_impl_crates_query` (in
`method_resolution`, outside this slice) walks the crate dependency graph
and collects the crates holding inherent impls for the fingerprint into a
fixed-capacity inline collection — `db.rs` fixes the declared result type
`ArrayVec<CrateId, 2>` — stopping as soon as the collection is full. -/

def inherentImplCratesGo (hasImpls : CrateId → Bool) (acc : List CrateId) :
    List CrateId → List CrateId
  | [] => acc
  | c :: cs =>
    if acc.length ≥ 2 then acc
    else inherentImplCratesGo hasImpls (if hasImpls c then acc ++ [c] else acc) cs

/-- Modelled from the spec: the bounded lookup behind `inherent_impl_crates`
(`krate`'s transitive dependencies are abstracted as the list `deps`, and
`hasImpls c` says whether crate `c` has inherent impls for the queried
fingerprint). -/
def inherent_impl_crates (deps : List CrateId) (hasImpls : CrateId → Bool) :
    List CrateId :=
  inherentImplCratesGo hasImpls [] deps

lemma inherentImplCratesGo_length (hasImpls : CrateId → Bool)
    (deps : List CrateId) :
    ∀ acc : List CrateId, acc.length ≤ 2 →
      (inherentImplCratesGo hasImpls acc deps).length ≤ 2 := by
  induction deps with
  | nil => intro acc h; simpa [inherentImplCratesGo] using h
  | cons c cs ih =>
    intro acc h
    by_cases hfull : acc.length ≥ 2
    · simpa [inherentImplCratesGo, hfull] using h
    · have hlt : acc.length ≤ 1 := by omega
      by_cases hc : hasImpls c
      · have : (acc ++ [c]).length ≤ 2 := by simp; omega
        simpa [inherentImplCratesGo, hfull, hc] using ih (acc ++ [c]) this
      · simpa [inherentImplCratesGo, hfull, hc] using ih acc h

/-! ## Block-level impl indices

Modelled from the spec: `InherentImpls::inherent_impls_in_block_query` and
`TraitImpls::trait_impls_in_block_query` (in `method_resolution`, outside
this slice) index the impls declared inside one block-local scope and
return an explicit absent result when the block declares none (§4.5). -/

structure BlockId where
  id : Nat
deriving DecidableEq, Repr

structure ImplId where
  id : Nat
deriving DecidableEq, Repr

structure TyFingerprint where
  fp : Nat
deriving DecidableEq, Repr

/-- A per-scope impl index: fingerprint → ordered set of impl ids. -/
structure InherentImpls where
  map : List (TyFingerprint × List ImplId)
deriving DecidableEq, Repr

structure TraitImpls where
  map : List (TyFingerprint × List ImplId)
deriving DecidableEq, Repr

/-- Modelled from the spec: the block-level inherent-impl index;
`declared` gives the (fingerprinted) impls declared inside the block. -/
def inherent_impls_in_block
    (declared : BlockId → List (TyFingerprint × List ImplId))
    (block : BlockId) : Option InherentImpls :=
  if (declared block).isEmpty then none
  else some ⟨declared block⟩

/-- Modelled from the spec: the block-level trait-impl index. -/
def trait_impls_in_block
    (declared : BlockId → List (TyFingerprint × List ImplId))
    (block : BlockId) : Option TraitImpls :=
  if (declared block).isEmpty then none
  else some ⟨declared block⟩

/-! ## The `reorder_impl_items` assist

Embedding of `crates/ide-assists/src/handlers/reorder_impl_items.rs`. The
syntax-tree inputs become structures carrying exactly the data the handler
reads; `itertools::sorted_by_key` (a stable sort) is embedded as a stable
insertion sort on the same `usize` keys. -/

inductive AssocItemKind where
  | constItem
  | fnItem
  | typeAliasItem
  | macroCallItem
deriving DecidableEq, Repr

structure AssocItem where
  kind : AssocItemKind
  name : Option String
  text : String
deriving DecidableEq, Repr

/-- The `match i { Const => c.name(), Fn => f.name(), TypeAlias => t.name(),
MacroCall => None }` step of the sort key. -/
def itemName (i : AssocItem) : Option String :=
  match i.kind with
  | AssocItemKind.constItem => i.name
  | AssocItemKind.fnItem => i.name
  | AssocItemKind.typeAliasItem => i.name
  | AssocItemKind.macroCallItem => none

structure TraitItem where
  name : Option String
deriving DecidableEq, Repr

structure TraitDef where
  items : List TraitItem

inductive ModuleDef where
  | traitDef (td : TraitDef)
  | otherDef

inductive PathResolution where
  | resolvedDef (d : ModuleDef)
  | otherResolution

structure Path where
  text : String
deriving DecidableEq, Repr

structure PathTypeNode where
  path : Option Path

inductive AstType where
  | pathType (pn : PathTypeNode)
  | otherType

structure Impl where
  assocItemList : Option (List AssocItem)
  traitTy : Option AstType

structure AssistContext where
  implAtOffset : Option Impl
  resolvePath : Path → Option PathResolution

/-- An offered assist: id, label and the item list the builder rewrites the
impl's items to (the net effect of the `ted::replace` loop). -/
structure Assist where
  id : String
  label : String
  newItems : List AssocItem
deriving DecidableEq, Repr

/-- Embedding of `trait_definition`. -/
def trait_definition (path : Path) (ctx : AssistContext) : Option TraitDef :=
  match ctx.resolvePath path with
  | some (PathResolution.resolvedDef (ModuleDef.traitDef td)) => some td
  | _ => none

/-- Insert-with-overwrite on a name→rank association list; the `FxHashMap`
collect keeps the last inserted rank for a repeated name. -/
def insertRank (m : List (String × Nat)) (k : String) (v : Nat) :
    List (String × Nat) :=
  match m with
  | [] => [(k, v)]
  | (k', v') :: rest =>
    if k' = k then (k', v) :: rest else (k', v') :: insertRank rest k v

/-- Embedding of `compute_item_ranks`: the trait's items, names flattened
(unnamed items skipped before enumeration), each name mapped to its index. -/
def compute_item_ranks (path : Path) (ctx : AssistContext) :
    Option (List (String × Nat)) :=
  match trait_definition path ctx with
  | none => none
  | some td =>
    some (((td.items.filterMap TraitItem.name).enum).foldl
      (fun m p => insertRank m p.2 p.1) [])

def usizeMax : Nat := 2 ^ 64 - 1

/-- The sort key from the handler: the item's name looked up in the rank
map, `usize::max_value()` when the item is unnamed or not in the trait. -/
def itemKey (ranks : List (String × Nat)) (i : AssocItem) : Nat :=
  ((itemName i).bind (fun n => ranks.lookup n)).getD usizeMax

def insertByKey {α : Type} (key : α → Nat) (x : α) : List α → List α
  | [] => [x]
  | y :: ys => if key x ≤ key y then x :: y :: ys else y :: insertByKey key x ys

/-- Stable sort by key, embedding `itertools::sorted_by_key`. -/
def sortByKey {α : Type} (key : α → Nat) : List α → List α
  | [] => []
  | x :: xs => insertByKey key x (sortByKey key xs)

/-- Embedding of `reorder_impl_items`: find the impl at the cursor, its item
list and its trait path; compute ranks; stably sort the items by rank; offer
no assist when the items are already in sorted order, otherwise offer the
rewrite to the sorted order. -/
def reorder_impl_items (ctx : AssistContext) : Option Assist :=
  match ctx.implAtOffset with
  | none => none
  | some impl_ast =>
    match impl_ast.assocItemList with
    | none => none
    | some assoc_items =>
      match impl_ast.traitTy with
      | none => none
      | some AstType.otherType => none
      | some (AstType.pathType pn) =>
        match pn.path with
        | none => none
        | some path =>
          match compute_item_ranks path ctx with
          | none => none
          | some ranks =>
            let sorted := sortByKey (itemKey ranks) assoc_items
            if assoc_items = sorted then none
            else some ⟨"reorder_impl_items", "Sort items by trait definition",
              sorted⟩

lemma reorder_impl_items_ranks (il : List AssocItem) (path : Path)
    (rp : Path → Option PathResolution) :
    reorder_impl_items (AssistContext.mk (some (Impl.mk (some il)
        (some (AstType.pathType (PathTypeNode.mk (some path)))))) rp)
      = match compute_item_ranks path (AssistContext.mk (some (Impl.mk
          (some il)
          (some (AstType.pathType (PathTypeNode.mk (some path)))))) rp) with
        | none => none
        | some ranks =>
          if il = sortByKey (itemKey ranks) il then none
          else some ⟨"reorder_impl_items", "Sort items by trait definition",
            sortByKey (itemKey ranks) il⟩ := rfl

lemma insertByKey_le {α : Type} (key : α → Nat) (x : α) (xs : List α)
    (h : ∀ z ∈ xs.head?, key x ≤ key z) : insertByKey key x xs = x :: xs := by
  cases xs with
  | nil => rfl
  | cons y ys => simp [insertByKey, h y (by simp)]

lemma sortByKey_of_pairwise {α : Type} (key : α → Nat) (l : List α)
    (h : l.Pairwise (fun x y => key x ≤ key y)) : sortByKey key l = l := by
  induction l with
  | nil => rfl
  | cons x xs ih =>
    rw [List.pairwise_cons] at h
    rw [sortByKey, ih h.2]
    apply insertByKey_le
    intro z hz
    cases xs with
    | nil => simp at hz
    | cons y ys =>
      simp at hz
      subst hz
      exact h.1 y (by simp)

/-! ## The config patcher's JSON merge

Embedding of `merge` from
`crates/rust-analyzer/src/config/patch_old_style.rs`. A `serde_json::Value`
becomes an inductive; an object's entries are an association list in
insertion order with unique keys (as in `serde_json::Map`). The source's
`dst.entry(k).or_insert(v.clone())` followed by `merge(entry, v)` becomes
`mergeEntry`: when `k` is present the existing value is merged with `v`,
otherwise `v` is inserted and then merged with itself. -/

inductive Value where
  | null
  | bool (b : Bool)
  | num (n : Int)
  | str (s : String)
  | arr (xs : List Value)
  | obj (kvs : List (String × Value))
deriving Repr

def Value.isObj : Value → Bool
  | Value.obj _ => true
  | _ => false

mutual

def merge : Value → Value → Value
  | Value.obj d, Value.obj s => Value.obj (mergeList d s)
  | _, src => src
termination_by _dst src => (sizeOf src, 0)

def mergeList : List (String × Value) → List (String × Value) →
    List (String × Value)
  | d, [] => d
  | d, (k, v) :: rest => mergeList (mergeEntry d k v) rest
termination_by _ s => (sizeOf s, 0)

def mergeEntry : List (String × Value) → String → Value →
    List (String × Value)
  | [], k, v => [(k, merge v v)]
  | (k', v') :: rest, k, v =>
    if k' = k then (k', merge v' v) :: rest
    else (k', v') :: mergeEntry rest k v
termination_by d _ v => (sizeOf v, sizeOf d + 1)

end

/-- Key lookup in an object's entry list (`serde_json::Map::get`). -/
def lookupKV (d : List (String × Value)) (k : String) : Option Value :=
  match d with
  | [] => none
  | (k', v) :: rest => if k' = k then some v else lookupKV rest k

def Value.lookupKey : Value → String → Option Value
  | Value.obj kvs, k => lookupKV kvs k
  | _, _ => none

lemma merge_obj (d s : List (String × Value)) :
    merge (Value.obj d) (Value.obj s) = Value.obj (mergeList d s) := by
  simp [merge]

lemma merge_leaf (dst src : Value) (h : src.isObj = false) :
    merge dst src = src := by
  cases dst <;> cases src <;> simp_all [merge, Value.isObj]

lemma mergeList_nil (d : List (String × Value)) : mergeList d [] = d := by
  rw [mergeList]

lemma mergeList_cons (d : List (String × Value)) (k : String) (v : Value)
    (rest : List (String × Value)) :
    mergeList d ((k, v) :: rest) = mergeList (mergeEntry d k v) rest := by
  rw [mergeList]

lemma mergeEntry_nil (k : String) (v : Value) :
    mergeEntry [] k v = [(k, merge v v)] := by
  rw [mergeEntry]

lemma mergeEntry_cons (k' : String) (v' : Value)
    (rest : List (String × Value)) (k : String) (v : Value) :
    mergeEntry ((k', v') :: rest) k v =
      if k' = k then (k', merge v' v) :: rest
      else (k', v') :: mergeEntry rest k v := by
  rw [mergeEntry]

lemma mergeEntry_lookupKV_ne (d : List (String × Value)) (k k' : String)
    (v : Value) (h : k' ≠ k) :
    lookupKV (mergeEntry d k' v) k = lookupKV d k := by
  induction d with
  | nil => simp [mergeEntry_nil, lookupKV, h]
  | cons p rest ih =>
    obtain ⟨pk, pv⟩ := p
    rw [mergeEntry_cons]
    by_cases hp : pk = k'
    · subst hp
      simp [lookupKV, h]
    · have h2 : ¬(k = k') := fun e => h e.symm
      by_cases hk : pk = k <;> simp [lookupKV, hp, hk, ih, h2]

lemma mergeEntry_lookupKV_self (d : List (String × Value)) (k : String)
    (v : Value) :
    lookupKV (mergeEntry d k v) k =
      some (match lookupKV d k with
            | some old => merge old v
            | none => merge v v) := by
  induction d with
  | nil => simp [mergeEntry_nil, lookupKV]
  | cons p rest ih =>
    obtain ⟨pk, pv⟩ := p
    rw [mergeEntry_cons]
    by_cases hp : pk = k
    · simp [lookupKV, hp]
    · simp [lookupKV, hp, ih]

lemma lookupKV_eq_none_of_not_mem (rest : List (String × Value)) (k : String)
    (h : k ∉ rest.map Prod.fst) : lookupKV rest k = none := by
  induction rest with
  | nil => rfl
  | cons p r ih =>
    obtain ⟨pk, pv⟩ := p
    rw [List.map_cons, List.mem_cons] at h
    push_neg at h
    simp [lookupKV, Ne.symm h.1, ih h.2]

lemma mergeList_lookupKV_absent (s : List (String × Value)) :
    ∀ (d : List (String × Value)) (k : String), lookupKV s k = none →
      lookupKV (mergeList d s) k = lookupKV d k := by
  induction s with
  | nil =>
    intro d k _
    rw [mergeList_nil]
  | cons p rest ih =>
    intro d k h
    obtain ⟨pk, pv⟩ := p
    rw [mergeList_cons]
    have hp : pk ≠ k := by
      intro e
      simp [lookupKV, e] at h
    have hrest : lookupKV rest k = none := by
      simpa [lookupKV, hp] using h
    rw [ih _ k hrest, mergeEntry_lookupKV_ne d k pk pv hp]

lemma mergeList_lookupKV_leaf (s : List (String × Value)) :
    ∀ (d : List (String × Value)) (k : String) (v : Value),
      lookupKV s k = some v → v.isObj = false →
      (s.map Prod.fst).Nodup →
      lookupKV (mergeList d s) k = some v := by
  induction s with
  | nil =>
    intro d k v h _ _
    simp [lookupKV] at h
  | cons p rest ih =>
    intro d k v h hleaf hnd
    obtain ⟨pk, pv⟩ := p
    rw [mergeList_cons]
    rw [List.map_cons, List.nodup_cons] at hnd
    by_cases hp : pk = k
    · subst hp
      have hv : pv = v := by simpa [lookupKV] using h
      subst hv
      have hrest_none : lookupKV rest pk = none :=
        lookupKV_eq_none_of_not_mem rest pk hnd.1
      rw [mergeList_lookupKV_absent rest _ pk hrest_none]
      rw [mergeEntry_lookupKV_self]
      cases hd : lookupKV d pk with
      | some old => simp [merge_leaf _ _ hleaf]
      | none => simp [merge_leaf _ _ hleaf]
    · have hrest : lookupKV rest k = some v := by
        simpa [lookupKV, hp] using h
      exact ih _ k v hrest hleaf hnd.2

/-! ## Supporting lemmas for the claim theorems -/

lemma get_get {K V : Type} [DecidableEq K] (f : K → V) (s : Store K V)
    (k : K) : get f (get f s k).2 k = get f s k := by
  unfold get
  cases hc : s.cache k with
  | none => simp [hc]
  | some p =>
    obtain ⟨v, r⟩ := p
    by_cases hr : r = s.rev
    · simp [hc, hr]
    · simp [hc, hr]

/-! ## Claim theorems -/

/-- C1: two definitions whose predicate queries mutually reference each
other terminate within a bounded number of store operations (three `get`s
from either entry point) and each member receives its registered per-query
fallback value; a self-referential definition fed to a cyclic-capable query
(`type A = Option<A>;` under `ty`) resolves to the fallback in two store
operations; and the `ty` and `generic_predicates_for_param` queries have
recovery functions registered in `db.rs`. -/
theorem cycle_recovery_terminates {K V : Type} [DecidableEq K] [Fintype K]
    (q q' : QuerySystem K V) (a b c : K) (hab : a ≠ b)
    (hda : q.deps a = [b]) (hdb : q.deps b = [a]) (hdc : q'.deps c = [c]) :
    eval q [] a = (EvalRes.val (q.fallback a [b, a]), 3)
    ∧ eval q [] b = (EvalRes.val (q.fallback b [a, b]), 3)
    ∧ eval q' [] c = (EvalRes.val (q'.fallback c [c]), 2)
    ∧ (findQuery "ty").map QueryDecl.cycleRecover
        = some (some "crate::lower::ty_recover")
    ∧ (findQuery "generic_predicates_for_param").map QueryDecl.cycleRecover
        = some (some "crate::lower::generic_predicates_for_param_recover") :=
  ⟨eval_mutual_cycle q a b hab hda hdb,
   eval_mutual_cycle q b a (fun e => hab e.symm) hdb hda,
   eval_self_cycle q' c hdc, rfl, rfl⟩

/-- Witness for C1 at a concrete two-query system (`true` and `false`
depending on each other, fallback value 7) and a concrete self-referential
system (fallback value 9). -/
theorem cycle_recovery_terminates_witness :
    eval (QuerySystem.mk (fun k => [!k]) (fun _ _ => 0) (fun _ _ => 7))
        [] true = (EvalRes.val 7, 3)
    ∧ eval (QuerySystem.mk (fun k => [!k]) (fun _ _ => 0) (fun _ _ => 7))
        [] false = (EvalRes.val 7, 3)
    ∧ eval (QuerySystem.mk (fun k => [k]) (fun _ _ => 0) (fun _ _ => 9))
        [] true = (EvalRes.val 9, 2)
    ∧ (findQuery "ty").map QueryDecl.cycleRecover
        = some (some "crate::lower::ty_recover")
    ∧ (findQuery "generic_predicates_for_param").map QueryDecl.cycleRecover
        = some (some "crate::lower::generic_predicates_for_param_recover") :=
  cycle_recovery_terminates
    (QuerySystem.mk (fun k => [!k]) (fun _ _ => 0) (fun _ _ => 7))
    (QuerySystem.mk (fun k => [k]) (fun _ _ => 0) (fun _ _ => 9))
    true false true (by decide) rfl rfl rfl

/-- C2: interning round-trip — `lookup(intern(c)) == c`; freshly issued
handles are equal iff the interned composites are equal; `intern` is
idempotent; and a handle issued earlier is never reused for a different
value (lookups of old handles survive later interning unchanged). -/
theorem interning_round_trip {C : Type} [DecidableEq C]
    (t : List C) (c c1 c2 : C) :
    lookup (intern t c).2 (intern t c).1 = some c
    ∧ ((intern (intern t c1).2 c2).1 = (intern t c1).1 ↔ c1 = c2)
    ∧ intern (intern t c).2 c = intern t c
    ∧ (∀ hh c0, lookup t hh = some c0 → lookup (intern t c).2 hh = some c0) := by
  refine ⟨lookup_intern t c, ⟨?_, ?_⟩, intern_idem t c, ?_⟩
  · intro he
    have h2 : lookup (intern (intern t c1).2 c2).2
        (intern (intern t c1).2 c2).1 = some c2 :=
      lookup_intern (intern t c1).2 c2
    have h1 : lookup (intern t c1).2 (intern t c1).1 = some c1 :=
      lookup_intern t c1
    have h1' : lookup (intern (intern t c1).2 c2).2 (intern t c1).1
        = some c1 :=
      lookup_intern_mono (intern t c1).2 c2 c1 (intern t c1).1 h1
    rw [he, h1'] at h2
    exact Option.some_injective _ h2
  · intro he
    subst he
    rw [intern_idem t c1]
  · intro hh c0 h
    exact lookup_intern_mono t c c0 hh h

/-- Witness for C2: interning 7 into the table holding 5, then looking the
old handle 0 up, still yields 5. -/
theorem interning_round_trip_witness :
    lookup (intern ([5] : List Nat) 7).2 0 = some 5 :=
  (interning_round_trip [5] 7 7 5).2.2.2 0 5 rfl

/-- C3: repeated `get` of the same (query kind, key) pair of the
`HirDatabase` query group, with no intervening revision bump, returns the
cached value unchanged — the second call is served from cache and leaves
the store in the same state. -/
theorem query_get_idempotent {V : Type} (f : QueryDecl × Nat → V)
    (s : Store (QueryDecl × Nat) V) (q : QueryDecl) (k : Nat)
    (_hq : q ∈ hirDatabaseQueries) :
    get f (get f s (q, k)).2 (q, k) = get f s (q, k) :=
  get_get f s (q, k)

/-- Witness for C3 at the `infer` query declaration, key 0, on the empty
store. -/
theorem query_get_idempotent_witness :
    get (fun _ => (0 : Nat))
        (get (fun _ => (0 : Nat)) (Store.empty (QueryDecl × Nat) Nat)
          (mkQuery "infer" (some "infer_wait") none true false, 0)).2
        (mkQuery "infer" (some "infer_wait") none true false, 0)
      = get (fun _ => (0 : Nat)) (Store.empty (QueryDecl × Nat) Nat)
          (mkQuery "infer" (some "infer_wait") none true false, 0) :=
  query_get_idempotent (fun _ => (0 : Nat)) (Store.empty (QueryDecl × Nat) Nat)
    (mkQuery "infer" (some "infer_wait") none true false) 0 (by decide)

/-- C4: the timing-span wrappers are behaviorally transparent — `infer`
(via `infer_wait`) returns exactly `infer_query`'s value and `trait_solve`
(via `trait_solve_wait`) returns exactly `trait_solve_query`'s value. -/
theorem timing_span_wrappers_transparent (db : HirDb) (d : DefWithBodyId)
    (krate : CrateId) (goal : CanonicalGoal) :
    infer_wait db d = db.inferQuery d
    ∧ trait_solve_wait db krate goal = db.traitSolveQuery krate goal :=
  ⟨rfl, rfl⟩

/-- C5: the bounded inherent-impl-crates lookup returns at most two crate
ids, for every dependency list and fingerprint predicate. -/
theorem inherent_impl_crates_bounded (deps : List CrateId)
    (hasImpls : CrateId → Bool) :
    (inherent_impl_crates deps hasImpls).length ≤ 2 :=
  inherentImplCratesGo_length hasImpls deps [] (by simp)

/-- C6: constant-evaluation failure is a typed error value — `const_eval`
always returns `ok` or `error`, and on a failing input the `error` variant
is stored in the cache and served to the next call exactly like a normal
result. -/
theorem const_eval_typed_error_cached
    (f : ConstId → Except ConstEvalError ComputedExpr) (s : ConstEvalStore)
    (d : ConstId) :
    ((∃ v, (const_eval f s d).1 = Except.ok v)
      ∨ (∃ e, (const_eval f s d).1 = Except.error e))
    ∧ (∀ e, f d = Except.error e → s.cache d = none →
        (const_eval f s d).1 = Except.error e
        ∧ ((const_eval f s d).2).cache d = some (Except.error e, s.rev)
        ∧ const_eval f ((const_eval f s d).2) d = const_eval f s d) := by
  constructor
  · cases h : (const_eval f s d).1 with
    | ok v => exact Or.inl ⟨v, rfl⟩
    | error e => exact Or.inr ⟨e, rfl⟩
  · intro e he hc
    refine ⟨?_, ?_, get_get f s d⟩
    · simp [const_eval, get, hc, he]
    · simp [const_eval, get, hc, he]

/-- Witness for C6: a constant whose evaluation reports a cyclic
definition, on the empty store. -/
theorem const_eval_typed_error_cached_witness :
    (const_eval (fun _ => Except.error ConstEvalError.cyclicDefinition)
        (Store.empty ConstId (Except ConstEvalError ComputedExpr))
        (ConstId.mk 0)).1
      = Except.error ConstEvalError.cyclicDefinition :=
  ((const_eval_typed_error_cached
      (fun _ => Except.error ConstEvalError.cyclicDefinition)
      (Store.empty ConstId (Except ConstEvalError ComputedExpr))
      (ConstId.mk 0)).2 ConstEvalError.cyclicDefinition rfl rfl).1

/-- C7: `trait_solve` returns an optional `Solution` — it equals
`trait_solve_query`'s value, that value is `none` or `some` solution, and
every returned solution is the unique or the ambiguous outcome; no other
outcome exists. -/
theorem trait_solve_optional_solution (db : HirDb) (krate : CrateId)
    (goal : CanonicalGoal) :
    trait_solve_wait db krate goal = db.traitSolveQuery krate goal
    ∧ (trait_solve_wait db krate goal = none
       ∨ ∃ s, trait_solve_wait db krate goal = some s)
    ∧ (∀ s, trait_solve_wait db krate goal = some s →
        (∃ subst, s = Solution.unique subst)
        ∨ (∃ g, s = Solution.ambig g)) := by
  refine ⟨rfl, ?_, ?_⟩
  · cases h : trait_solve_wait db krate goal with
    | none => exact Or.inl rfl
    | some s => exact Or.inr ⟨s, rfl⟩
  · intro s _
    cases s with
    | unique su => exact Or.inl ⟨su, rfl⟩
    | ambig g => exact Or.inr ⟨g, rfl⟩

/-- Witness for C7 at a database whose solver reports ambiguity. -/
theorem trait_solve_optional_solution_witness :
    (∃ subst, Solution.ambig none = Solution.unique subst)
    ∨ (∃ g, Solution.ambig none = Solution.ambig g) :=
  (trait_solve_optional_solution
      (HirDb.mk (fun _ => "") (fun _ => "") (fun _ => none)
        (fun _ => InferenceResult.mk 0) (fun _ _ => some (Solution.ambig none)))
      (CrateId.mk 0) (CanonicalGoal.mk 0)).2.2 (Solution.ambig none) rfl

/-- C8: a block-local scope declaring no impls yields an explicit absent
result (`none`) from both block-level impl-index queries, and a non-absent
result is returned only when the block declares impls. -/
theorem block_impl_index_absent (declared : BlockId →
      List (TyFingerprint × List ImplId)) (block : BlockId) :
    (declared block = [] → inherent_impls_in_block declared block = none
      ∧ trait_impls_in_block declared block = none)
    ∧ (∀ i, inherent_impls_in_block declared block = some i →
        declared block ≠ [])
    ∧ (∀ i, trait_impls_in_block declared block = some i →
        declared block ≠ []) := by
  refine ⟨?_, ?_, ?_⟩
  · intro h
    constructor <;> simp [inherent_impls_in_block, trait_impls_in_block, h]
  · intro i h he
    simp [inherent_impls_in_block, he] at h
  · intro i h he
    simp [trait_impls_in_block, he] at h

/-- Witness for C8: the empty block yields `none` from both queries, and a
block declaring one impl is indeed non-empty. -/
theorem block_impl_index_absent_witness :
    (inherent_impls_in_block (fun _ => []) (BlockId.mk 0) = none
      ∧ trait_impls_in_block (fun _ => []) (BlockId.mk 0) = none)
    ∧ ((fun _ : BlockId => [(TyFingerprint.mk 0, [ImplId.mk 1])])
        (BlockId.mk 0) ≠ []) :=
  ⟨(block_impl_index_absent (fun _ => []) (BlockId.mk 0)).1 rfl,
   (block_impl_index_absent
      (fun _ => [(TyFingerprint.mk 0, [ImplId.mk 1])]) (BlockId.mk 0)).2.1
     (InherentImpls.mk [(TyFingerprint.mk 0, [ImplId.mk 1])]) (by decide)⟩

/-- C9: when the impl's associated items already appear in the same
relative order as in the trait's definition — their sort keys are pairwise
non-decreasing, which in particular covers an empty item list — or any step
of finding the impl, its item list, its trait path or the trait definition
fails, `reorder_impl_items` offers no assist (`none`). -/
theorem reorder_impl_items_sorted_none (ctx : AssistContext)
    (h : ∀ impl_ast il pn path td,
      ctx.implAtOffset = some impl_ast →
      impl_ast.assocItemList = some il →
      impl_ast.traitTy = some (AstType.pathType pn) →
      pn.path = some path →
      compute_item_ranks path ctx = some td →
      il.Pairwise (fun x y => itemKey td x ≤ itemKey td y)) :
    reorder_impl_items ctx = none := by
  obtain ⟨io, rp⟩ := ctx
  cases io with
  | none => rfl
  | some impl_ast =>
    obtain ⟨ail, tty⟩ := impl_ast
    cases ail with
    | none => rfl
    | some il =>
      cases tty with
      | none => rfl
      | some t =>
        cases t with
        | otherType => rfl
        | pathType pn =>
          obtain ⟨po⟩ := pn
          cases po with
          | none => rfl
          | some path =>
            rw [reorder_impl_items_ranks]
            cases hr : compute_item_ranks path
                (AssistContext.mk
                  (some (Impl.mk (some il)
                    (some (AstType.pathType (PathTypeNode.mk (some path))))))
                  rp) with
            | none => rfl
            | some ranks =>
              have hs := h (Impl.mk (some il)
                  (some (AstType.pathType (PathTypeNode.mk (some path)))))
                il (PathTypeNode.mk (some path)) path ranks rfl rfl rfl rfl hr
              have hfix : sortByKey (itemKey ranks) il = il :=
                sortByKey_of_pairwise (itemKey ranks) il hs
              simp [hfix]

/-- Witness for C9: a concrete impl whose items follow the trait order
(type, const, three fns), mirroring the `not_applicable_if_sorted` test. -/
theorem reorder_impl_items_sorted_none_witness :
    reorder_impl_items
      (AssistContext.mk
        (some (Impl.mk
          (some
            [ AssocItem.mk AssocItemKind.typeAliasItem (some "T") "type T = ();"
            , AssocItem.mk AssocItemKind.constItem (some "C") "const C: () = ();"
            , AssocItem.mk AssocItemKind.fnItem (some "a") "fn a() {}"
            , AssocItem.mk AssocItemKind.fnItem (some "z") "fn z() {}"
            , AssocItem.mk AssocItemKind.fnItem (some "b") "fn b() {}"
            ])
          (some (AstType.pathType (PathTypeNode.mk (some (Path.mk "Bar")))))))
        (fun _ => some (PathResolution.resolvedDef (ModuleDef.traitDef
          (TraitDef.mk
            [ TraitItem.mk (some "T"), TraitItem.mk (some "C")
            , TraitItem.mk (some "a"), TraitItem.mk (some "z")
            , TraitItem.mk (some "b") ])))))
      = none := by
  apply reorder_impl_items_sorted_none
  intro impl_ast il pn path td h1 h2 h3 h4 h5
  simp only [Option.some.injEq] at h1
  subst h1
  simp only [Option.some.injEq] at h2 h3
  subst h2
  cases h3
  simp only [Option.some.injEq] at h4
  subst h4
  simp only [compute_item_ranks, trait_definition, Option.some.injEq] at h5
  subst h5
  decide

/-- C10: the config patcher's JSON `merge` is frame-preserving on objects —
keys absent from the source object keep their destination values, and
source leaf (non-object) values overwrite the corresponding destination
entries. -/
theorem merge_frame_preserving (d s : List (String × Value)) :
    (∀ k, lookupKV s k = none →
      (merge (Value.obj d) (Value.obj s)).lookupKey k = lookupKV d k)
    ∧ (∀ k v, lookupKV s k = some v → v.isObj = false →
      (s.map Prod.fst).Nodup →
      (merge (Value.obj d) (Value.obj s)).lookupKey k = some v) := by
  constructor
  · intro k hk
    rw [merge_obj]
    exact mergeList_lookupKV_absent s d k hk
  · intro k v h hleaf hnd
    rw [merge_obj]
    exact mergeList_lookupKV_leaf s d k v h hleaf hnd

/-- Witness for C10: merging `{b: 3, c: null}` into `{a: 1, b: 2}` keeps
`a` at 1 and overwrites `b` with 3. -/
theorem merge_frame_preserving_witness :
    (merge (Value.obj [("a", Value.num 1), ("b", Value.num 2)])
        (Value.obj [("b", Value.num 3), ("c", Value.null)])).lookupKey "a"
      = some (Value.num 1)
    ∧ (merge (Value.obj [("a", Value.num 1), ("b", Value.num 2)])
        (Value.obj [("b", Value.num 3), ("c", Value.null)])).lookupKey "b"
      = some (Value.num 3) :=
  ⟨(merge_frame_preserving [("a", Value.num 1), ("b", Value.num 2)]
      [("b", Value.num 3), ("c", Value.null)]).1 "a" rfl,
   (merge_frame_preserving [("a", Value.num 1), ("b", Value.num 2)]
      [("b", Value.num 3), ("c", Value.null)]).2 "b" (Value.num 3) rfl rfl
      (by simp)⟩

end RustAnalyzer
